import Mathlib

/-!
Shallow embedding of `multiplex.go` (package multiplex): a mplex-style
stream multiplexer.  Go `uint64` arithmetic is modelled on `Nat` with an
explicit `% 2 ^ 64` wherever the Go computation can wrap.  Channel-based
code is modelled by explicit state passing; the scheduler's choice in a
`select` with several ready cases is passed in as an explicit argument.
Blocking operations return `none` / a `stuck` outcome when every `select`
case is unready.
-/

namespace GoMplex

/-- Errors visible in the Go code: `io.EOF`, the `"stream closed"` error from
`Stream.Write`, the `"Too large of a number!"` error from `DecodeVarint`
(overflow), and `io.ErrUnexpectedEOF` from `io.ReadFull`. -/
inductive GoErr
  | eof
  | streamClosed
  | overflow
  | unexpectedEOF
deriving DecidableEq, Repr

/-- Frame tag constants, from the `iota` block of `multiplex.go`:
`NewStream = 0`, `Receiver = 1`, `Initiator = 2`, `Unknown = 3`, `Close = 4`. -/
def NewStream : Nat := 0

def Receiver : Nat := 1

def Initiator : Nat := 2

def Unknown : Nat := 3

def Close : Nat := 4

/-- `EncodeVarint`: emit 7-bit groups least-significant first; every group
except the last carries the continuation bit `0x80`.  Mirrors

    for n = 0; x > 127; n++ { buf[n] = 0x80 | uint8(x&0x7F); x >>= 7 }
    buf[n] = uint8(x)
-/
def EncodeVarint (x : Nat) : List Nat :=
  if 127 < x then (0x80 ||| (x &&& 0x7F)) :: EncodeVarint (x >>> 7)
  else [x]
termination_by x
decreasing_by
  simp only [Nat.shiftRight_eq_div_pow]
  exact Nat.div_lt_self (by omega) (by norm_num)

/-- Loop body of `DecodeVarint`.  The reader is a byte list; `ReadByte` on an
exhausted reader yields `io.EOF`.  A byte is a value `< 256`, enforced by
`% 256` at the read (a `bufio.Reader` can only ever hand back a `byte`).
The Go accumulator is a `uint64`, hence the `% 2 ^ 64` on the `|=`.
Returns `(x, n, rest)`: the decoded value, the byte count, and the unread
remainder of the input. -/
def decodeVarintAux : List Nat → Nat → Nat → Nat → Except GoErr (Nat × Nat × List Nat)
  | bs, shift, x, n =>
    if shift < 64 then
      match bs with
      | [] => .error .eof
      | v :: rest =>
        let b := v % 256
        let x2 := (x ||| ((b &&& 0x7F) <<< shift)) % 2 ^ 64
        if b &&& 0x80 = 0 then .ok (x2, n + 1, rest)
        else decodeVarintAux rest (shift + 7) x2 (n + 1)
    else .error .overflow

/-- `DecodeVarint`: the loop runs for `shift = 0, 7, …` while `shift < 64`;
if no terminating byte is seen in those ten iterations it fails with the
"Too large of a number!" (overflow) error. -/
def DecodeVarint (bs : List Nat) : Except GoErr (Nat × Nat × List Nat) :=
  decodeVarintAux bs 0 0 0

/-! ## Streams -/

/-- A message on the outbound channel: `msg{header, data}` (the `err` field of
the Go struct is never set anywhere in `multiplex.go`). -/
structure Msg where
  header : Nat
  data : List Nat
deriving DecidableEq, Repr

/-- State of a `Stream`.  `closed` models whether the one-shot `closed`
channel has been closed; `dataIn` holds the payloads queued in the
capacity-8 `data_in` channel and `dataInClosed` whether that channel has
been closed; `buf` is the residual `bytes.Buffer`.  The stream name is kept
as raw bytes (Go strings are byte strings). -/
structure Stream where
  id : Nat
  name : List Nat
  header : Nat
  closed : Bool
  dataIn : List (List Nat)
  dataInClosed : Bool
  buf : List Nat
deriving DecidableEq, Repr

/-- `newStream`: header is `(id << 3) | 2` for a locally initiated stream and
`(id << 3) | 1` otherwise, computed in `uint64` arithmetic. -/
def newStream (id : Nat) (name : List Nat) (initiator : Bool) : Stream :=
  { id := id
    name := name
    header := ((id <<< 3) % 2 ^ 64) ||| (if initiator then 2 else 1)
    closed := false
    dataIn := []
    dataInClosed := false
    buf := [] }

/-- Possible outcomes of `Stream.receive`.  The select chooses between the
send into `data_in` (ready when the channel has buffer space, or — fatally —
when it has been closed, in which case the send panics) and the receive from
`closed` (ready once the stream is closed).  `pick = true` resolves a
two-way-ready select in favour of the send case. -/
inductive RecvResult
  | delivered (s : Stream)
  | dropped
  | panicked
  | blocked
deriving DecidableEq, Repr

/-- `Stream.receive`:

    select {
    case s.data_in <- b:
    case <-s.closed:
    }
-/
def streamReceive (s : Stream) (b : List Nat) (pick : Bool) : RecvResult :=
  let sendReady := s.dataInClosed || decide (s.dataIn.length < 8)
  let send : RecvResult :=
    if s.dataInClosed then .panicked
    else .delivered { s with dataIn := s.dataIn ++ [b] }
  if sendReady && s.closed then (if pick then send else .dropped)
  else if sendReady then send
  else if s.closed then .dropped
  else .blocked

/-- The `for len(b) > 0` loop of `Stream.Read`, reading payload slices from
the inbox into the remaining window of `w` bytes.  Returns the bytes
delivered, the error, the remaining inbox and the residual buffer, or `none`
when the receive would block.  When the inbox is drained and either channel
state ends the wait, both Go branches (`!ok` and `<-s.closed`) return
`nread, nil`. -/
def readLoop : List (List Nat) → Bool → Bool → Nat → List Nat →
    Option (List Nat × Option GoErr × List (List Nat) × List Nat)
  | inbox, inboxClosed, closedSig, w, acc =>
    if w = 0 then some (acc, none, inbox, [])
    else
      match inbox with
      | [] =>
        if inboxClosed then some (acc, none, [], [])
        else if closedSig then some (acc, none, [], [])
        else none
      | d :: rest =>
        if w < d.length then
          some (acc ++ d.take w, none, rest, d.drop w)
        else readLoop rest inboxClosed closedSig (w - d.length) (acc ++ d)

/-- `Stream.Read` into a buffer of length `blen`.  If the `closed` signal has
already fired the initial non-blocking select returns `(0, io.EOF)` at once.
Otherwise the residual buffer is drained first, then the inbox loop runs.
Returns the bytes copied out, the error, and the updated stream; `none` when
the call would block. -/
def streamRead (s : Stream) (blen : Nat) :
    Option (List Nat × Option GoErr × Stream) :=
  if s.closed then some ([], some GoErr.eof, s)
  else if 0 < s.buf.length then
    if blen ≤ s.buf.length then
      some (s.buf.take blen, none, { s with buf := s.buf.drop blen })
    else
      match readLoop s.dataIn s.dataInClosed s.closed (blen - s.buf.length) s.buf with
      | none => none
      | some (out, e, inbox2, buf2) =>
        some (out, e, { s with dataIn := inbox2, buf := buf2 })
  else
    match readLoop s.dataIn s.dataInClosed s.closed blen [] with
    | none => none
    | some (out, e, inbox2, buf2) =>
      some (out, e, { s with dataIn := inbox2, buf := buf2 })

/-- `Stream.Write`:

    select {
    case s.data_out <- msg{header: s.header, data: b}: return len(b), nil
    case <-s.closed: return 0, errors.New("stream closed")
    }

`sendReady` models whether the unbuffered `data_out` send is ready (the
serializer is parked on a receive); `pick = true` resolves a two-way-ready
select in favour of the send.  Returns `(n, err, forwarded message)`, or
`none` when neither case is ready. -/
def streamWrite (s : Stream) (b : List Nat) (sendReady pick : Bool) :
    Option (Nat × Option GoErr × Option Msg) :=
  let sendRes : Option (Nat × Option GoErr × Option Msg) :=
    some (b.length, none, some ⟨s.header, b⟩)
  let closeRes : Option (Nat × Option GoErr × Option Msg) :=
    some (0, some GoErr.streamClosed, none)
  if sendReady && s.closed then (if pick then sendRes else closeRes)
  else if sendReady then sendRes
  else if s.closed then closeRes
  else none

/-- `Stream.Close`: a no-op if `closed` already fired; otherwise fire
`closed`, try a non-blocking send of `msg{header: (s.id << 3) | Close}`
(dropped if the serializer is not ready), and close `data_in`.  Returns the
forwarded Close frame (if any) and the new state; the Go error result is
`nil` on every path. -/
def streamClose (s : Stream) (sendReady : Bool) : Option Msg × Stream :=
  if s.closed then (none, s)
  else
    (if sendReady then some ⟨((s.id <<< 3) % 2 ^ 64) ||| Close, []⟩ else none,
     { s with closed := true, dataInClosed := true })

/-! ## Multiplexer -/

/-- State of a `Multiplex` for the operations the claims need: the id
counter, the initiator flag, the one-shot `closed` signal and the stream
map. -/
structure Multiplex where
  nextID : Nat
  initiator : Bool
  closed : Bool
  channels : List (Nat × Stream)
deriving DecidableEq, Repr

def NewMultiplex (initiator : Bool) : Multiplex :=
  { nextID := 0, initiator := initiator, closed := false, channels := [] }

/-- `Multiplex.nextChanID`: under the channel lock, return `nextID + 1` if
initiator else `nextID`, then advance `nextID` by 2 (`uint64` arithmetic). -/
def nextChanID (mp : Multiplex) : Nat × Multiplex :=
  ((if mp.initiator then (mp.nextID + 1) % 2 ^ 64 else mp.nextID),
   { mp with nextID := (mp.nextID + 2) % 2 ^ 64 })

def IsClosed (mp : Multiplex) : Bool := mp.closed

/-- `Multiplex.Close`: no-op when already closed, else fire `closed` and close
every stream in the map.  `Stream.Close` returns `nil` on every path, so the
early-return-on-error in the Go loop is dead and the result is always `nil`.
Returns the messages the child closes forwarded, and the new state. -/
def mpClose (mp : Multiplex) (sendReady : Bool) : List Msg × Multiplex :=
  if IsClosed mp then ([], mp)
  else
    (mp.channels.filterMap fun p => (streamClose p.2 sendReady).1,
     { mp with
        closed := true
        channels := mp.channels.map fun p => (p.1, (streamClose p.2 sendReady).2) })

/-- The multiplexer state after `i` calls of `nextChanID`, starting from a
fresh multiplexer. -/
def mpAfterCalls (initiator : Bool) : Nat → Multiplex
  | 0 => NewMultiplex initiator
  | i + 1 => (nextChanID (mpAfterCalls initiator i)).2

/-- The id issued by the `(i+1)`-st call of `nextChanID` (0-based `i`). -/
def issuedId (initiator : Bool) (i : Nat) : Nat :=
  (nextChanID (mpAfterCalls initiator i)).1

/-! ## The inbound dispatch loop (`Serve`) -/

/-- `Multiplex.readNextHeader`: decode the header varint and split it into
`(ch, rem) = (h >> 3, h & 7)`.  Also returns the unread input. -/
def readNextHeader (input : List Nat) : Except GoErr (Nat × Nat × List Nat) :=
  match DecodeVarint input with
  | .error e => .error e
  | .ok (h, _, rest) => .ok (h >>> 3, h &&& 7, rest)

/-- `Multiplex.readNext`: decode the length varint, then `io.ReadFull` exactly
that many payload bytes.  `ReadFull` yields `io.EOF` when no byte at all was
available (with a positive request) and `io.ErrUnexpectedEOF` when only some
were; the `n != int(l)` panic guard cannot fire.  Returns the payload and the
unread input. -/
def readNext (input : List Nat) : Except GoErr (List Nat × List Nat) :=
  match DecodeVarint input with
  | .error e => .error e
  | .ok (l, _, rest) =>
    if l ≤ rest.length then .ok (rest.take l, rest.drop l)
    else if rest.length = 0 then .error .eof
    else .error .unexpectedEOF

/-- Dispatch-loop state.  `channels` is the `mp.channels` map (an association
list).  `spawned` records, in order, the ids of the streams handed to
`go handler(msch)`.  `removed` records streams deleted from the map by the
Close branch: in Go the handler goroutine still holds a pointer to such a
stream, so its final state stays observable.  `emitted` collects the frames
the internal `Stream.Close` calls managed to hand to the outbound channel. -/
structure ServeState where
  channels : List (Nat × Stream)
  spawned : List Nat
  removed : List (Nat × Stream)
  emitted : List Msg
deriving DecidableEq, Repr

def initServe : ServeState := ⟨[], [], [], []⟩

/-- Result of one iteration of the `Serve` loop: return `nil`, return an
error, continue with the rest of the input, panic (inside `receive`), or
block forever (inbox full). -/
inductive StepRes
  | done (st : ServeState)
  | fail (e : GoErr) (st : ServeState)
  | cont (st : ServeState) (rest : List Nat)
  | panicStop (st : ServeState)
  | stuck (st : ServeState)
deriving DecidableEq, Repr

/-- The body of the dispatch after a frame `(ch, tag, b)` has been read.
Mirrors lines 272–298 of `multiplex.go`: unknown ids get a fresh
non-initiator stream (named by the payload only for `NewStream` frames) and
a spawned handler; `NewStream` frames for fresh ids carry no body;
`Close` frames close the stream and delete it from the map; every other tag
is delivered via `receive`.  In every state this loop can reach, a stream in
the map has `closed = false` and `dataInClosed = false`, so the scheduler
choice `pick` inside `receive` is never consulted on reachable states. -/
def dispatchFrame (ready pick : Bool) (st : ServeState) (ch tag : Nat)
    (b : List Nat) (r2 : List Nat) : StepRes :=
  let fresh := List.lookup ch st.channels matches none
  let pre :=
    match List.lookup ch st.channels with
    | some s => (s, st)
    | none =>
      let s := newStream ch (if tag = NewStream then b else []) false
      (s, { st with
              channels := (ch, s) :: st.channels
              spawned := st.spawned ++ [ch] })
  let msch := pre.1
  let st1 := pre.2
  if fresh && decide (tag = NewStream) then .cont st1 r2
  else if tag = Close then
    let c := streamClose msch ready
    .cont { st1 with
              channels := st1.channels.filter fun p => p.1 != ch
              removed := (ch, c.2) :: st1.removed
              emitted := st1.emitted ++ c.1.toList } r2
  else
    match streamReceive msch b pick with
    | .delivered s2 =>
      .cont { st1 with
                channels := st1.channels.map fun p =>
                  if p.1 = ch then (ch, s2) else p } r2
    | .dropped => .cont st1 r2
    | .panicked => .panicStop st1
    | .blocked => .stuck st1

/-- One iteration of the `Serve` loop: read a header, read the body, dispatch.
A decode `io.EOF` at either read makes `Serve` return `nil`. -/
def serveStep (ready pick : Bool) (st : ServeState) (input : List Nat) : StepRes :=
  match readNextHeader input with
  | .error e => if e = GoErr.eof then .done st else .fail e st
  | .ok (ch, tag, r1) =>
    match readNext r1 with
    | .error e => if e = GoErr.eof then .done st else .fail e st
    | .ok (b, r2) => dispatchFrame ready pick st ch tag b r2

/-- `Multiplex.shutdown`, deferred from `Serve`: close every stream left in
the map. -/
def shutdownAll (ready : Bool) (st : ServeState) : ServeState :=
  { st with
      channels := st.channels.map fun p => (p.1, (streamClose p.2 ready).2)
      emitted := st.emitted ++ st.channels.filterMap fun p => (streamClose p.2 ready).1 }

/-- Outcome of running `Serve` on a complete transport input. -/
inductive ServeOutcome
  | ok (st : ServeState)
  | fail (e : GoErr) (st : ServeState)
  | panicStop (st : ServeState)
  | stuck (st : ServeState)
  | fuelOut
deriving DecidableEq, Repr

/-- The `Serve` loop, with fuel (each iteration consumes at least one input
byte, so `input.length + 1` fuel always suffices). -/
def serveLoop (ready pick : Bool) : Nat → ServeState → List Nat → ServeOutcome
  | 0, _, _ => .fuelOut
  | fuel + 1, st, input =>
    match serveStep ready pick st input with
    | .done st2 => .ok (shutdownAll ready st2)
    | .fail e st2 => .fail e (shutdownAll ready st2)
    | .cont st2 rest => serveLoop ready pick fuel st2 rest
    | .panicStop st2 => .panicStop st2
    | .stuck st2 => .stuck st2

/-- `Multiplex.Serve handler` run over the whole inbound byte stream. -/
def Serve (ready pick : Bool) (input : List Nat) : ServeOutcome :=
  serveLoop ready pick (input.length + 1) initServe input

/-! Arithmetic facts about the bit operations used in the codec. -/

theorem lor_shiftLeft_eq_add {a : Nat} (b k : Nat) (ha : a < 2 ^ k) :
    a ||| b <<< k = a + b * 2 ^ k := by
  have h := Nat.mul_add_lt_is_or (i := k) ha b
  rw [Nat.shiftLeft_eq, Nat.lor_comm, Nat.mul_comm]
  omega

theorem and_127_eq_mod (x : Nat) : x &&& 127 = x % 128 := by
  have h := Nat.and_pow_two_sub_one_eq_mod x 7
  norm_num at h
  exact h

theorem and_7_eq_mod (x : Nat) : x &&& 7 = x % 8 := by
  have h := Nat.and_pow_two_sub_one_eq_mod x 3
  norm_num at h
  exact h

theorem and_128_eq_zero_iff {x : Nat} (h : x < 256) : x &&& 128 = 0 ↔ x < 128 := by
  have h2 := Nat.and_two_pow x 7
  norm_num at h2
  rw [h2, Nat.testBit_to_div_mod]
  rcases Nat.lt_or_ge x 128 with h3 | h3
  · have : x / 128 = 0 := Nat.div_eq_of_lt h3
    simp [this]
    omega
  · have : x / 128 = 1 := by omega
    simp [this]
    omega

theorem or_byte_128 {c : Nat} (h : c < 128) : 128 ||| c = 128 + c := by
  have h2 := Nat.mul_add_lt_is_or (i := 7) (show c < 2 ^ 7 by omega) 1
  norm_num at h2
  omega

/-! Varint round-trip. -/

theorem encodeVarint_length_pos (x : Nat) : 1 ≤ (EncodeVarint x).length := by
  rw [EncodeVarint]
  split <;> simp

theorem encodeVarint_length_le :
    ∀ (k x : Nat), 0 < k → x < 2 ^ (7 * k) → (EncodeVarint x).length ≤ k := by
  intro k
  induction k with
  | zero => intro x h; omega
  | succ k ih =>
    intro x _ hx
    rw [EncodeVarint]
    by_cases h : 127 < x
    · have hk : 0 < k := by
        rcases Nat.eq_zero_or_pos k with h0 | h0
        · subst h0; norm_num at hx; omega
        · exact h0
      have hd : x >>> 7 < 2 ^ (7 * k) := by
        rw [Nat.shiftRight_eq_div_pow]
        have : x < 2 ^ (7 * k) * 2 ^ 7 := by
          rw [← Nat.pow_add]
          have : 7 * k + 7 = 7 * (k + 1) := by ring
          rw [this]
          exact hx
        rw [Nat.div_lt_iff_lt_mul (by norm_num : 0 < 2 ^ 7)]
        exact this
      have := ih (x >>> 7) hk hd
      simp only [if_pos h, List.length_cons]
      omega
    · simp [h]

theorem decodeAux_encode (x : Nat) : ∀ (shift acc n : Nat) (rest : List Nat),
    shift < 64 → x < 2 ^ (64 - shift) → acc < 2 ^ shift →
    decodeVarintAux (EncodeVarint x ++ rest) shift acc n
      = .ok (acc + x * 2 ^ shift, n + (EncodeVarint x).length, rest) := by
  induction x using Nat.strong_induction_on with
  | _ x ih =>
    intro shift acc n rest hs hx ha
    have hsum : acc + x * 2 ^ shift < 2 ^ 64 := by
      have h1 : acc + x * 2 ^ shift < (x + 1) * 2 ^ shift := by nlinarith [Nat.pos_pow_of_pos shift (by norm_num : 0 < 2)]
      have h2 : (x + 1) * 2 ^ shift ≤ 2 ^ (64 - shift) * 2 ^ shift := by
        have : x + 1 ≤ 2 ^ (64 - shift) := hx
        exact Nat.mul_le_mul_right _ this
      have h3 : 2 ^ (64 - shift) * 2 ^ shift = 2 ^ 64 := by
        rw [← Nat.pow_add]
        congr 1
        omega
      omega
    rw [EncodeVarint]
    by_cases h127 : 127 < x
    · -- continuation byte 0x80 | (x & 0x7F), then recurse on x >> 7
      have hshift7 : shift + 7 < 64 := by
        by_contra hc
        have h64 : 64 - shift ≤ 7 := by omega
        have : (2 : Nat) ^ (64 - shift) ≤ 2 ^ 7 := Nat.pow_le_pow_right (by norm_num) h64
        norm_num at this
        omega
      simp only [if_pos h127, List.cons_append]
      rw [decodeVarintAux]
      simp only [if_pos hs]
      have hb : (0x80 ||| (x &&& 0x7F)) = 128 + x % 128 := by
        rw [and_127_eq_mod]
        exact or_byte_128 (Nat.mod_lt _ (by norm_num))
      have hblt : 128 + x % 128 < 256 := by
        have := Nat.mod_lt x (show 0 < 128 by norm_num)
        omega
      rw [hb]
      simp only [Nat.mod_eq_of_lt hblt]
      have hb127 : (128 + x % 128) &&& 0x7F = x % 128 := by
        rw [and_127_eq_mod, Nat.add_mod_left]
        omega
      have hb128 : ¬((128 + x % 128) &&& 0x80 = 0) := by
        rw [and_128_eq_zero_iff hblt]
        omega
      rw [hb127]
      simp only [if_neg hb128]
      have hacc2 : acc ||| (x % 128) <<< shift = acc + (x % 128) * 2 ^ shift :=
        lor_shiftLeft_eq_add _ _ ha
      have hacc2lt : acc + (x % 128) * 2 ^ shift < 2 ^ (shift + 7) := by
        have hm := Nat.mod_lt x (show 0 < 128 by norm_num)
        have : acc + (x % 128) * 2 ^ shift < 128 * 2 ^ shift := by nlinarith [Nat.pos_pow_of_pos shift (by norm_num : 0 < 2)]
        have h7 : (128 : Nat) * 2 ^ shift = 2 ^ (shift + 7) := by
          rw [Nat.pow_add]
          ring
        omega
      have hacc2lt64 : acc + (x % 128) * 2 ^ shift < 2 ^ 64 := by
        have : (2 : Nat) ^ (shift + 7) ≤ 2 ^ 64 := Nat.pow_le_pow_right (by norm_num) (by omega)
        omega
      rw [hacc2, Nat.mod_eq_of_lt hacc2lt64]
      have hdivlt : x >>> 7 < 2 ^ (64 - (shift + 7)) := by
        rw [Nat.shiftRight_eq_div_pow]
        rw [Nat.div_lt_iff_lt_mul (by norm_num : 0 < 2 ^ 7)]
        have : 2 ^ (64 - (shift + 7)) * 2 ^ 7 = 2 ^ (64 - shift) := by
          rw [← Nat.pow_add]
          congr 1
          omega
        omega
      have hrec : x >>> 7 < x := by
        rw [Nat.shiftRight_eq_div_pow]
        exact Nat.div_lt_self (by omega) (by norm_num)
      rw [ih (x >>> 7) hrec (shift + 7) _ (n + 1) rest hshift7 hdivlt hacc2lt]
      simp only [Except.ok.injEq, Prod.mk.injEq, List.length_cons]
      refine ⟨?_, by omega, trivial⟩
      -- value: acc + (x % 128) * 2^shift + (x >>> 7) * 2^(shift+7) = acc + x * 2^shift
      have hx128 : 128 * (x / 128) + x % 128 = x := by
        have := Nat.div_add_mod x 128
        omega
      rw [Nat.shiftRight_eq_div_pow]
      norm_num
      have hpow : (2 : Nat) ^ (shift + 7) = 2 ^ shift * 128 := by
        rw [Nat.pow_add]
      rw [hpow]
      nlinarith [hx128]
    · -- final byte: x itself, x ≤ 127
      have hx256 : x < 256 := by omega
      simp only [if_neg h127, List.cons_append, List.nil_append]
      rw [decodeVarintAux]
      simp only [if_pos hs, Nat.mod_eq_of_lt hx256]
      have hb127 : x &&& 0x7F = x := by
        rw [and_127_eq_mod]
        exact Nat.mod_eq_of_lt (by omega)
      have hb128 : x &&& 0x80 = 0 := (and_128_eq_zero_iff hx256).mpr (by omega)
      rw [hb127]
      simp only [hb128, if_pos rfl]
      rw [lor_shiftLeft_eq_add _ _ ha, Nat.mod_eq_of_lt hsum]
      simp

/-- Reading a strict prefix of an encoding consumes every byte of the prefix
(all non-final bytes carry the continuation bit) and ends in `io.EOF`. -/
theorem decodeAux_encode_take (x : Nat) : ∀ (k shift acc n : Nat),
    shift < 64 → x < 2 ^ (64 - shift) → k < (EncodeVarint x).length →
    decodeVarintAux ((EncodeVarint x).take k) shift acc n = .error .eof := by
  induction x using Nat.strong_induction_on with
  | _ x ih =>
    intro k shift acc n hs hx hk
    match k with
    | 0 =>
      simp only [List.take_zero]
      rw [decodeVarintAux]
      simp [hs]
    | j + 1 =>
      rw [EncodeVarint] at hk ⊢
      by_cases h127 : 127 < x
      · simp only [if_pos h127, List.length_cons] at hk
        have hshift7 : shift + 7 < 64 := by
          by_contra hc
          have h64 : 64 - shift ≤ 7 := by omega
          have : (2 : Nat) ^ (64 - shift) ≤ 2 ^ 7 := Nat.pow_le_pow_right (by norm_num) h64
          norm_num at this
          omega
        simp only [if_pos h127, List.take_succ_cons]
        rw [decodeVarintAux]
        simp only [if_pos hs]
        have hb : (0x80 ||| (x &&& 0x7F)) = 128 + x % 128 := by
          rw [and_127_eq_mod]
          exact or_byte_128 (Nat.mod_lt _ (by norm_num))
        have hblt : 128 + x % 128 < 256 := by
          have := Nat.mod_lt x (show 0 < 128 by norm_num)
          omega
        rw [hb]
        simp only [Nat.mod_eq_of_lt hblt]
        have hb128 : ¬((128 + x % 128) &&& 0x80 = 0) := by
          rw [and_128_eq_zero_iff hblt]
          omega
        simp only [if_neg hb128]
        have hdivlt : x >>> 7 < 2 ^ (64 - (shift + 7)) := by
          rw [Nat.shiftRight_eq_div_pow]
          rw [Nat.div_lt_iff_lt_mul (by norm_num : 0 < 2 ^ 7)]
          have : 2 ^ (64 - (shift + 7)) * 2 ^ 7 = 2 ^ (64 - shift) := by
            rw [← Nat.pow_add]
            congr 1
            omega
          omega
        have hrec : x >>> 7 < x := by
          rw [Nat.shiftRight_eq_div_pow]
          exact Nat.div_lt_self (by omega) (by norm_num)
        exact ih (x >>> 7) hrec j (shift + 7) _ (n + 1) hshift7 hdivlt (by omega)
      · simp only [if_neg h127, List.length_singleton] at hk
        omega

/-- The decode loop fails with overflow exactly when every byte it is willing
to read (ten of them from `shift = 0`) carries the continuation bit. -/
theorem decodeAux_overflow_iff :
    ∀ (bs : List Nat) (shift x n : Nat),
    decodeVarintAux bs shift x n = .error .overflow ↔
      ∀ i, i < (70 - shift) / 7 → 128 ≤ bs.getD i 0 % 256 := by
  intro bs
  induction bs with
  | nil =>
    intro shift x n
    rw [decodeVarintAux]
    by_cases hs : shift < 64
    · simp only [if_pos hs]
      constructor
      · intro h
        simp at h
      · intro h
        have h0 := h 0 (by omega)
        simp at h0
    · simp only [if_neg hs]
      constructor
      · intro _ i hi
        omega
      · intro _
        trivial
  | cons v rest ih =>
    intro shift x n
    rw [decodeVarintAux]
    by_cases hs : shift < 64
    · simp only [if_pos hs]
      have hb256 : v % 256 < 256 := Nat.mod_lt _ (by norm_num)
      by_cases hb : v % 256 &&& 0x80 = 0
      · simp only [if_pos hb]
        rw [and_128_eq_zero_iff hb256] at hb
        constructor
        · intro h
          simp at h
        · intro h
          have h0 := h 0 (by omega)
          simp only [List.getD_cons_zero] at h0
          omega
      · simp only [if_neg hb]
        rw [ih (shift + 7) _ (n + 1)]
        rw [and_128_eq_zero_iff hb256] at hb
        have hcount : (70 - shift) / 7 = (70 - (shift + 7)) / 7 + 1 := by omega
        constructor
        · intro h i hi
          match i with
          | 0 =>
            simp only [List.getD_cons_zero]
            omega
          | i + 1 =>
            simp only [List.getD_cons_succ]
            exact h i (by omega)
        · intro h i hi
          have := h (i + 1) (by omega)
          simpa using this
    · simp only [if_neg hs]
      constructor
      · intro _ i hi
        omega
      · intro _
        trivial

/-- Round-trip on the full encoding, via `decodeAux_encode` with no trailing
input. -/
theorem decode_encode (x : Nat) (hx : x < 2 ^ 64) :
    DecodeVarint (EncodeVarint x) = .ok (x, (EncodeVarint x).length, []) := by
  have h := decodeAux_encode x 0 0 0 [] (by norm_num) (by simpa using hx) (by norm_num)
  rw [DecodeVarint, ← List.append_nil (EncodeVarint x)]
  simpa using h

/-- Decoding with trailing input after a full encoding. -/
theorem decode_encode_append (x : Nat) (rest : List Nat) (hx : x < 2 ^ 64) :
    DecodeVarint (EncodeVarint x ++ rest) = .ok (x, (EncodeVarint x).length, rest) := by
  have h := decodeAux_encode x 0 0 0 rest (by norm_num) (by simpa using hx) (by norm_num)
  rw [DecodeVarint]
  simpa using h

/-- **C3.** Varint round-trip: for every `uint64` value `x`, `EncodeVarint x`
is 1 to 10 bytes long, `0` encodes as the single byte `0x00`, and
`DecodeVarint` applied to the encoding returns `x` together with the byte
length of the encoding (consuming the whole input). -/
theorem varint_roundtrip (x : Nat) (hx : x < 2 ^ 64) :
    1 ≤ (EncodeVarint x).length ∧ (EncodeVarint x).length ≤ 10 ∧
    EncodeVarint 0 = [0] ∧
    DecodeVarint (EncodeVarint x) = .ok (x, (EncodeVarint x).length, []) := by
  refine ⟨encodeVarint_length_pos x, ?_, ?_, ?_⟩
  · exact encodeVarint_length_le 10 x (by norm_num)
      (lt_of_lt_of_le hx (Nat.pow_le_pow_right (by norm_num) (by norm_num)))
  · rw [EncodeVarint]
    norm_num
  · exact decode_encode x hx

theorem varint_roundtrip_witness :
    300 < 2 ^ 64 ∧
      (1 ≤ (EncodeVarint 300).length ∧ (EncodeVarint 300).length ≤ 10 ∧
       EncodeVarint 0 = [0] ∧
       DecodeVarint (EncodeVarint 300) = .ok (300, (EncodeVarint 300).length, [])) :=
  ⟨by norm_num, varint_roundtrip 300 (by norm_num)⟩

/-- **C4, counterexample.** The input `0x80 ×9, 0x02` has value bits at
positions 64…: its mathematical varint value is `2 * 2^63 = 2^64`.  The
claim says any such input is rejected; the code instead accepts it,
silently truncating the accumulator modulo `2^64` and returning `0`. -/
theorem decode_truncation_counterexample :
    DecodeVarint [128, 128, 128, 128, 128, 128, 128, 128, 128, 2]
      = .ok (0, 10, []) := rfl

/-- **C4, amended.** `DecodeVarint` fails with overflow iff each of the first
ten input bytes has its high (continuation) bit set; in particular ten
`0x80` bytes fail.  A tenth byte with the high bit clear instead terminates
decoding successfully with the value truncated modulo `2^64`. -/
theorem decode_overflow_boundary :
    DecodeVarint (List.replicate 10 128) = .error .overflow ∧
    ∀ bs : List Nat, DecodeVarint bs = .error .overflow ↔
      ∀ i, i < 10 → 128 ≤ bs.getD i 0 % 256 := by
  constructor
  · rfl
  · intro bs
    have h := decodeAux_overflow_iff bs 0 0 0
    norm_num at h
    simpa [List.getD_eq_getElem?_getD] using h

/-! ## Stream-level claims -/

/-- **C1, counterexample.** The `iota` block makes `Close = 4`, not 5: the
Close frame `Stream.Close` emits for stream id 42 has header
`(42 << 3) | 4 = 340`, not 341. -/
theorem close_header_42_counterexample :
    (streamClose (newStream 42 [] true) true).1 = some ⟨340, []⟩ ∧ (340 : Nat) ≠ 341 :=
  ⟨rfl, by decide⟩

/-- **C1, amended.** A Close-tagged frame carries wire tag 4: for every
stream id (below `2^61`, so that the shifted header fits in a `uint64`),
the Close frame emitted by `Stream.Close` has header `(id << 3) | 4`, and
the dispatch loop decodes that header back to `(id, Close)` with
`Close = 4`; for `id = 42` the header is 340. -/
theorem close_frame_tag4 (id : Nat) (name : List Nat) (ini : Bool)
    (h : id < 2 ^ 61) :
    Close = 4 ∧
    (streamClose (newStream id name ini) true).1 = some ⟨(id <<< 3) ||| Close, []⟩ ∧
    readNextHeader (EncodeVarint ((id <<< 3) ||| Close)) = .ok (id, Close, []) := by
  have hv : (id <<< 3) ||| Close = id * 8 + 4 := by
    rw [Close, Nat.lor_comm]
    have h4 := lor_shiftLeft_eq_add (a := 4) id 3 (by norm_num)
    rw [h4]
    omega
  have hlt : (id <<< 3) ||| Close < 2 ^ 64 := by
    rw [hv]
    have h8 : (2 : Nat) ^ 61 * 8 = 2 ^ 64 := by norm_num
    omega
  refine ⟨rfl, ?_, ?_⟩
  · have hmod : (id <<< 3) % 2 ^ 64 = id <<< 3 := by
      apply Nat.mod_eq_of_lt
      have h8 : (2 : Nat) ^ 61 * 8 = 2 ^ 64 := by norm_num
      have hs : id <<< 3 = id * 8 := by rw [Nat.shiftLeft_eq]
      omega
    have hcl : (streamClose (newStream id name ini) true).1
        = some ⟨(id <<< 3) % 2 ^ 64 ||| Close, []⟩ := rfl
    rw [hcl, hmod]
  · rw [readNextHeader, decode_encode _ hlt]
    dsimp only
    have h3 : ((id <<< 3) ||| Close) >>> 3 = id := by
      rw [hv, Nat.shiftRight_eq_div_pow]
      norm_num
      omega
    have h7 : ((id <<< 3) ||| Close) &&& 7 = Close := by
      rw [hv, and_7_eq_mod, Close]
      omega
    rw [h3, h7]

theorem close_frame_tag4_witness :
    42 < 2 ^ 61 ∧
      (Close = 4 ∧
       (streamClose (newStream 42 [] true) true).1 = some ⟨(42 <<< 3) ||| Close, []⟩ ∧
       readNextHeader (EncodeVarint ((42 <<< 3) ||| Close)) = .ok (42, Close, [])) :=
  ⟨by norm_num, close_frame_tag4 42 [] true (by norm_num)⟩

/-- The inbox loop of `Stream.Read` never produces an error: all of its
return paths are `…, nil`. -/
theorem readLoop_err_none :
    ∀ (inbox : List (List Nat)) (ic cs : Bool) (w : Nat) (acc out : List Nat)
      (e : Option GoErr) (inbox2 : List (List Nat)) (buf2 : List Nat),
      readLoop inbox ic cs w acc = some (out, e, inbox2, buf2) → e = none := by
  intro inbox
  induction inbox with
  | nil =>
    intro ic cs w acc out e inbox2 buf2 h
    rw [readLoop] at h
    split at h
    · simp at h
      exact h.2.1.symm
    · split at h
      · simp at h
        exact h.2.1.symm
      · split at h
        · simp at h
          exact h.2.1.symm
        · simp at h
  | cons d rest ih =>
    intro ic cs w acc out e inbox2 buf2 h
    rw [readLoop] at h
    split at h
    · simp at h
      exact h.2.1.symm
    · split at h
      · simp at h
        exact h.2.1.symm
      · exact ih ic cs _ _ out e inbox2 buf2 h

/-- A stream closed with buffered residual data and a queued inbox payload,
used to exhibit the no-drain behaviour of `Stream.Read` after close. -/
def closedBufferedStream : Stream :=
  { id := 1
    name := []
    header := 10
    closed := true
    dataIn := [[8]]
    dataInClosed := true
    buf := [7] }

/-- **C2, counterexample.** After the `closed` signal has fired, `Read`
returns `(0, io.EOF)` immediately — the initial select short-circuits — even
though the residual buffer still holds a byte and the inbox still holds a
queued payload.  The claim says such a call first drains buffer and inbox. -/
theorem read_after_close_no_drain_counterexample :
    streamRead closedBufferedStream 4
      = some ([], some GoErr.eof, closedBufferedStream) ∧
    closedBufferedStream.buf = [7] ∧ closedBufferedStream.dataIn = [[8]] :=
  ⟨rfl, rfl, rfl⟩

/-- **C2, amended.** Once the `closed` signal has fired, every `Read` returns
`(0, io.EOF)` immediately, without draining the residual buffer or the
inbox.  `io.EOF` is returned only on such calls (hence only with zero bytes
copied); a `Read` that starts before the signal fires never returns an
error, so a call that copies at least one byte returns `Ok`. -/
theorem read_closed_eof_semantics :
    (∀ (s : Stream) (blen : Nat), s.closed = true →
        streamRead s blen = some ([], some GoErr.eof, s)) ∧
    (∀ (s : Stream) (blen : Nat) (out : List Nat) (e : Option GoErr) (s2 : Stream),
        streamRead s blen = some (out, e, s2) →
        e = none ∨ (e = some GoErr.eof ∧ out = [] ∧ s2 = s ∧ s.closed = true)) := by
  constructor
  · intro s blen h
    rw [streamRead, if_pos h]
  · intro s blen out e s2 h
    by_cases hc : s.closed
    · right
      rw [streamRead, if_pos hc] at h
      simp at h
      exact ⟨h.2.1.symm, h.1, h.2.2.symm, hc⟩
    · left
      rw [streamRead, if_neg hc] at h
      split at h
      · split at h
        · simp at h
          exact h.2.1.symm
        · split at h
          · simp at h
          · next out2 heq =>
            simp at h
            rcases h with ⟨h1, h2, _⟩
            subst h2
            exact readLoop_err_none _ _ _ _ _ _ _ _ _ heq
      · split at h
        · simp at h
        · next out2 heq =>
          simp at h
          rcases h with ⟨h1, h2, _⟩
          subst h2
          exact readLoop_err_none _ _ _ _ _ _ _ _ _ heq

theorem read_closed_eof_semantics_witness :
    closedBufferedStream.closed = true ∧
    streamRead closedBufferedStream 3
      = some ([], some GoErr.eof, closedBufferedStream) :=
  ⟨rfl, read_closed_eof_semantics.1 closedBufferedStream 3 rfl⟩

/-! ## Identifier allocation (C5) -/

theorem mpAfterCalls_spec (ini : Bool) :
    ∀ i, (mpAfterCalls ini i).nextID = 2 * i % 2 ^ 64 ∧
         (mpAfterCalls ini i).initiator = ini := by
  intro i
  induction i with
  | zero => simp [mpAfterCalls, NewMultiplex]
  | succ i ih =>
    rw [mpAfterCalls, nextChanID]
    refine ⟨?_, ih.2⟩
    simp only [ih.1]
    omega

theorem issuedId_formula (ini : Bool) (i : Nat) :
    issuedId ini i = (2 * i + if ini then 1 else 0) % 2 ^ 64 := by
  rw [issuedId, nextChanID]
  have h := mpAfterCalls_spec ini i
  rw [h.1, h.2]
  cases ini <;> simp

/-- **C5, counterexample.** `nextID` is a `uint64` and wraps: the responder id
issued on call number `2^63` equals the id issued on call 0 (both are `0`),
so over an unbounded run ids are reused and not strictly increasing. -/
theorem chanID_reuse_counterexample :
    issuedId false (2 ^ 63) = issuedId false 0 ∧ (2 ^ 63 : Nat) ≠ 0 := by
  constructor
  · rw [issuedId_formula, issuedId_formula]
    norm_num
  · norm_num

/-- **C5, amended.** With `initiator = true` the first four issued ids are
1, 3, 5, 7; with `initiator = false` they are 0, 2, 4, 6.  Each call returns
`nextID + 1` (initiator) or `nextID` (responder) and advances `nextID` by 2
in `uint64` arithmetic, so the issued id sequence is
`(2·i + parity) mod 2^64`; ids are strictly increasing (hence never reused)
as long as fewer than `2^63` ids have been issued, i.e. before the counter
wraps. -/
theorem chanID_parity_increase (ini : Bool) (i j : Nat) (hij : i < j)
    (hj : j < 2 ^ 63) :
    (issuedId true 0 = 1 ∧ issuedId true 1 = 3 ∧
     issuedId true 2 = 5 ∧ issuedId true 3 = 7) ∧
    (issuedId false 0 = 0 ∧ issuedId false 1 = 2 ∧
     issuedId false 2 = 4 ∧ issuedId false 3 = 6) ∧
    issuedId ini i = (2 * i + if ini then 1 else 0) % 2 ^ 64 ∧
    issuedId ini i < issuedId ini j := by
  refine ⟨?_, ?_, issuedId_formula ini i, ?_⟩
  · refine ⟨?_, ?_, ?_, ?_⟩ <;> rw [issuedId_formula] <;> norm_num
  · refine ⟨?_, ?_, ?_, ?_⟩ <;> rw [issuedId_formula] <;> norm_num
  · rw [issuedId_formula, issuedId_formula]
    have h1 : 2 * i + (if ini then 1 else 0) < 2 ^ 64 := by
      cases ini <;> simp <;> omega
    have h2 : 2 * j + (if ini then 1 else 0) < 2 ^ 64 := by
      cases ini <;> simp <;> omega
    rw [Nat.mod_eq_of_lt h1, Nat.mod_eq_of_lt h2]
    omega

theorem chanID_parity_increase_witness :
    1 < 2 ∧ 2 < 2 ^ 63 ∧
      ((issuedId true 0 = 1 ∧ issuedId true 1 = 3 ∧
        issuedId true 2 = 5 ∧ issuedId true 3 = 7) ∧
       (issuedId false 0 = 0 ∧ issuedId false 1 = 2 ∧
        issuedId false 2 = 4 ∧ issuedId false 3 = 6) ∧
       issuedId true 1 = (2 * 1 + if true then 1 else 0) % 2 ^ 64 ∧
       issuedId true 1 < issuedId true 2) :=
  ⟨by norm_num, by norm_num, chanID_parity_increase true 1 2 (by norm_num) (by norm_num)⟩

/-! ## Write after close (C6) -/

/-- A freshly created then locally mis-marked stream: the `closed` signal has
fired but the serializer happens to be parked on the outbound channel. -/
def closedWriteStream : Stream :=
  { newStream 5 [] true with closed := true }

/-- **C6, counterexample.** `Stream.Write` races the outbound send against
the `closed` signal in one `select`; when both are ready Go picks either
case.  With the serializer ready and the scheduler picking the send case, a
`Write` on a closed stream succeeds: it returns `(len, Ok)` and forwards the
frame, contradicting the claim that every such write returns
`(0, StreamClosed)` and forwards nothing. -/
theorem write_on_closed_succeeds_counterexample :
    closedWriteStream.closed = true ∧
    streamWrite closedWriteStream [9] true true
      = some (1, none, some ⟨42, [9]⟩) :=
  ⟨rfl, rfl⟩

/-- **C6, amended.** A `Write` on a closed stream returns `(0, StreamClosed)`
and forwards nothing **unless** the serializer is simultaneously ready to
accept the frame and the select resolves in favour of the send, in which
case it succeeds; in particular with the serializer not ready every write on
a closed stream fails.  Any write accepted by the serializer (no error)
returns `(in_buf.len, Ok)` and forwards `{header, in_buf}`. -/
theorem write_closed_race :
    (∀ (s : Stream) (b : List Nat) (ready pick : Bool), s.closed = true →
        streamWrite s b ready pick =
          if ready && pick then some (b.length, none, some ⟨s.header, b⟩)
          else some (0, some GoErr.streamClosed, none)) ∧
    (∀ (s : Stream) (b : List Nat) (ready pick : Bool) (n : Nat) (m : Option Msg),
        streamWrite s b ready pick = some (n, none, m) →
        n = b.length ∧ m = some ⟨s.header, b⟩) := by
  constructor
  · intro s b ready pick h
    rw [streamWrite]
    simp only [h]
    cases ready <;> cases pick <;> simp
  · intro s b ready pick n m h
    rw [streamWrite] at h
    split at h
    · split at h
      · simp at h
        exact ⟨h.1.symm, h.2.symm⟩
      · simp at h
    · split at h
      · simp at h
        exact ⟨h.1.symm, h.2.symm⟩
      · split at h
        · simp at h
        · simp at h

theorem write_closed_race_witness :
    closedWriteStream.closed = true ∧
      streamWrite closedWriteStream [9, 9] false true =
        (if false && true then
          some ((9 :: [9]).length, none, some ⟨closedWriteStream.header, [9, 9]⟩)
         else some (0, some GoErr.streamClosed, none)) :=
  ⟨rfl, write_closed_race.1 closedWriteStream [9, 9] false true rfl⟩

/-! ## Receive after close (C8) -/

/-- The state of a stream right after `Stream.Close`: `closed` has fired and
`data_in` has been closed. -/
def streamAfterClose : Stream := (streamClose (newStream 3 [] false) false).2

/-- **C8.** After `Stream.Close` both select cases of `receive` are ready:
the `closed` receive (drop) and the send into the *closed* `data_in`
channel.  Go picks between ready cases arbitrarily, and a send on a closed
channel panics — so `receive` after close either drops silently or panics,
contradicting the claim that it always returns without failing or
panicking. -/
theorem receive_after_close_panics :
    streamAfterClose.closed = true ∧ streamAfterClose.dataInClosed = true ∧
    streamReceive streamAfterClose [5] true = .panicked ∧
    streamReceive streamAfterClose [5] false = .dropped :=
  ⟨rfl, rfl, rfl, rfl⟩

/-! ## Idempotent close (C9) -/

/-- **C9.** Close is idempotent: a second `Stream.Close` returns `nil`,
emits no Close frame and leaves the state unchanged; a second
`Multiplex.Close` returns `nil`, forwards nothing and changes nothing. -/
theorem close_idempotent :
    (∀ (s : Stream) (r1 r2 : Bool),
        streamClose (streamClose s r1).2 r2 = (none, (streamClose s r1).2)) ∧
    (∀ (mp : Multiplex) (r1 r2 : Bool),
        mpClose (mpClose mp r1).2 r2 = ([], (mpClose mp r1).2)) := by
  constructor
  · intro s r1 r2
    by_cases h : s.closed
    · simp [streamClose, h]
    · simp [streamClose, h]
  · intro mp r1 r2
    by_cases h : mp.closed
    · simp [mpClose, IsClosed, h]
    · simp [mpClose, IsClosed, h]

/-! ## Serve and EOF framing (C7) -/

theorem shutdownAll_init (ready : Bool) : shutdownAll ready initServe = initServe := rfl

theorem serve_step_done (ready pick : Bool) (input : List Nat) (st2 : ServeState)
    (h : serveStep ready pick initServe input = .done st2) :
    Serve ready pick input = .ok (shutdownAll ready st2) := by
  rw [Serve, serveLoop, h]

theorem serve_step_fail (ready pick : Bool) (input : List Nat) (e : GoErr)
    (st2 : ServeState) (h : serveStep ready pick initServe input = .fail e st2) :
    Serve ready pick input = .fail e (shutdownAll ready st2) := by
  rw [Serve, serveLoop, h]

/-- **C7, counterexample.** The byte `0x0A` is a complete header varint
(stream 1, tag 2) and the transport then ends: end-of-input falls after the
frame's header but before its length varint — mid-frame.  The claim says
`Serve` must return an error here; it returns success, because the `io.EOF`
from the length-varint decode is treated as clean shutdown. -/
theorem serve_midframe_ok_counterexample :
    DecodeVarint [10] = .ok (10, 1, []) ∧
    Serve false false [10] = .ok initServe :=
  ⟨rfl, rfl⟩

/-- **C7, amended.** `Serve` returns an error for a truncated frame only when
at least one but fewer than `length` payload bytes are present
(`io.ErrUnexpectedEOF` from `io.ReadFull`).  End-of-input anywhere inside or
right after the header varint, inside the length varint, or right after the
length varint with the whole payload missing is treated as clean shutdown:
`Serve` returns success. -/
theorem serve_eof_framing (h l : Nat) (p : List Nat) (ready pick : Bool)
    (hh : h < 2 ^ 64) (hl : l < 2 ^ 64) :
    (∀ k, k ≤ (EncodeVarint h).length →
        Serve ready pick ((EncodeVarint h).take k) = .ok initServe) ∧
    (∀ k, k < (EncodeVarint l).length →
        Serve ready pick (EncodeVarint h ++ (EncodeVarint l).take k) = .ok initServe) ∧
    (0 < l → Serve ready pick (EncodeVarint h ++ EncodeVarint l) = .ok initServe) ∧
    (0 < p.length → p.length < l →
        Serve ready pick (EncodeVarint h ++ EncodeVarint l ++ p)
          = .fail GoErr.unexpectedEOF initServe) := by
  refine ⟨?_, ?_, ?_, ?_⟩
  · intro k hk
    rcases Nat.lt_or_ge k (EncodeVarint h).length with hlt | hge
    · -- truncated inside the header varint
      have hd : DecodeVarint ((EncodeVarint h).take k) = .error .eof :=
        decodeAux_encode_take h k 0 0 0 (by norm_num) (by simpa using hh) hlt
      rw [← shutdownAll_init ready]
      apply serve_step_done
      rw [serveStep, readNextHeader, hd]
      rfl
    · -- the full header, then end of input
      have hk2 : k = (EncodeVarint h).length := by omega
      rw [hk2, List.take_length]
      rw [← shutdownAll_init ready]
      apply serve_step_done
      rw [serveStep, readNextHeader, decode_encode h hh]
      rfl
  · intro k hk
    have hd : DecodeVarint ((EncodeVarint l).take k) = .error .eof :=
      decodeAux_encode_take l k 0 0 0 (by norm_num) (by simpa using hl) hk
    rw [← shutdownAll_init ready]
    apply serve_step_done
    rw [serveStep, readNextHeader, decode_encode_append h _ hh]
    dsimp only
    rw [readNext, hd]
    rfl
  · intro hl0
    rw [← shutdownAll_init ready]
    apply serve_step_done
    rw [serveStep, readNextHeader, decode_encode_append h _ hh]
    dsimp only
    rw [readNext, decode_encode l hl]
    dsimp only
    rw [if_neg (show ¬l ≤ ([] : List Nat).length by simp; omega)]
    rfl
  · intro hp0 hpl
    rw [List.append_assoc, ← shutdownAll_init ready]
    apply serve_step_fail
    rw [serveStep, readNextHeader, decode_encode_append h _ hh]
    dsimp only
    rw [readNext, decode_encode_append l _ hl]
    dsimp only
    rw [if_neg (show ¬l ≤ p.length by omega), if_neg (show ¬p.length = 0 by omega)]
    rfl

theorem serve_eof_framing_witness :
    10 < 2 ^ 64 ∧ 2 < 2 ^ 64 ∧
      ((∀ k, k ≤ (EncodeVarint 10).length →
          Serve false false ((EncodeVarint 10).take k) = .ok initServe) ∧
       (∀ k, k < (EncodeVarint 2).length →
          Serve false false (EncodeVarint 10 ++ (EncodeVarint 2).take k) = .ok initServe) ∧
       (0 < 2 → Serve false false (EncodeVarint 10 ++ EncodeVarint 2) = .ok initServe) ∧
       (0 < [1].length → [1].length < 2 →
          Serve false false (EncodeVarint 10 ++ EncodeVarint 2 ++ [1])
            = .fail GoErr.unexpectedEOF initServe)) :=
  ⟨by norm_num, by norm_num,
   serve_eof_framing 10 2 [1] false false (by norm_num) (by norm_num)⟩

/-! ## A Close frame for an unknown stream id (C10) -/

theorem lookup_filter_ne (ch : Nat) (l : List (Nat × Stream)) :
    List.lookup ch (l.filter fun p => p.1 != ch) = none := by
  induction l with
  | nil => rfl
  | cons a rest ih =>
    obtain ⟨k, v⟩ := a
    rw [List.filter_cons]
    by_cases h : k = ch
    · rw [if_neg (by simp [h])]
      exact ih
    · rw [if_pos (by simp [h]), List.lookup_cons]
      have hbeq : (ch == k) = false := by
        simp [Ne.symm h]
      rw [hbeq]
      exact ih

/-- **C10.** When the dispatch loop reads a Close-tagged frame whose stream
id is not in `channels`, it creates a fresh stream for that id, spawns a
handler invocation on it, then immediately closes the stream and deletes it
from the map: after the iteration the id has been handed to a handler, is
absent from the map, and the stream object the handler holds (recorded in
`removed`) has both its `closed` signal fired and its inbox closed. -/
theorem close_unknown_id_spawns (st : ServeState) (ch : Nat) (ready pick : Bool)
    (hch : ch < 2 ^ 61) (hlk : List.lookup ch st.channels = none) :
    serveStep ready pick st (EncodeVarint ((ch <<< 3) ||| Close) ++ EncodeVarint 0) =
      .cont { st with
                channels := st.channels.filter fun p => p.1 != ch
                spawned := st.spawned ++ [ch]
                removed := (ch, (streamClose (newStream ch [] false) ready).2) :: st.removed
                emitted := st.emitted ++ ((streamClose (newStream ch [] false) ready).1).toList } [] ∧
    (streamClose (newStream ch [] false) ready).2.closed = true ∧
    (streamClose (newStream ch [] false) ready).2.dataInClosed = true ∧
    List.lookup ch (st.channels.filter fun p => p.1 != ch) = none := by
  have hv : (ch <<< 3) ||| Close = ch * 8 + 4 := by
    rw [Close, Nat.lor_comm]
    have h4 := lor_shiftLeft_eq_add (a := 4) ch 3 (by norm_num)
    rw [h4]
    omega
  have hlt : (ch <<< 3) ||| Close < 2 ^ 64 := by
    rw [hv]
    have h8 : (2 : Nat) ^ 61 * 8 = 2 ^ 64 := by norm_num
    omega
  have h3 : ((ch <<< 3) ||| Close) >>> 3 = ch := by
    rw [hv, Nat.shiftRight_eq_div_pow]
    norm_num
    omega
  have h7 : ((ch <<< 3) ||| Close) &&& 7 = Close := by
    rw [hv, and_7_eq_mod, Close]
    omega
  have he0 : EncodeVarint 0 = [0] := by
    rw [EncodeVarint]
    norm_num
  refine ⟨?_, ?_, ?_, lookup_filter_ne ch st.channels⟩
  · rw [serveStep, readNextHeader, decode_encode_append _ _ hlt]
    dsimp only
    rw [h3, h7, he0]
    have hd0 : readNext [0] = .ok ([], []) := rfl
    rw [hd0]
    unfold dispatchFrame
    simp only [hlk]
    have htag : ¬(Close = NewStream) := by rw [Close, NewStream]; omega
    simp only [htag, decide_eq_false_iff_not, Bool.and_false, if_false, if_pos rfl,
      ite_false, Bool.false_eq_true]
    have hfilter : ((ch, newStream ch (if Close = NewStream then [] else []) false)
          :: st.channels).filter (fun p => p.1 != ch)
        = st.channels.filter fun p => p.1 != ch := by
      rw [List.filter_cons, if_neg (by simp)]
    simp [htag, hfilter]
  · rw [streamClose]
    simp [newStream]
  · rw [streamClose]
    simp [newStream]

theorem close_unknown_id_spawns_witness :
    7 < 2 ^ 61 ∧ List.lookup 7 initServe.channels = none ∧
      (serveStep true false initServe (EncodeVarint ((7 <<< 3) ||| Close) ++ EncodeVarint 0) =
        .cont { initServe with
                  channels := initServe.channels.filter fun p => p.1 != 7
                  spawned := initServe.spawned ++ [7]
                  removed := (7, (streamClose (newStream 7 [] false) true).2) :: initServe.removed
                  emitted := initServe.emitted ++ ((streamClose (newStream 7 [] false) true).1).toList } [] ∧
       (streamClose (newStream 7 [] false) true).2.closed = true ∧
       (streamClose (newStream 7 [] false) true).2.dataInClosed = true ∧
       List.lookup 7 (initServe.channels.filter fun p => p.1 != 7) = none) :=
  ⟨by norm_num, rfl, close_unknown_id_spawns initServe 7 true false (by norm_num) rfl⟩

end GoMplex
